import Mathlib

set_option maxHeartbeats 1000000
set_option maxRecDepth 10000

/-!
Shallow embedding of the response-parsing and judgement-normalisation core of
the llm-ensemble repository, and proofs of the frozen claims about it.

Python strings are represented as `List Char`. Character classes (`\s`, `\d`,
`str.lower`, `str.strip`) are modelled over ASCII, which covers every input the
claims quantify over or evaluate.
-/

/-- Character list of a string literal; the embedding represents Python `str`
values as `List Char`. -/
def strL (s : String) : List Char := s.data

/-- Python-str whitespace (ASCII fragment): the characters the regex class `\s`
matches and `str.strip()` removes. -/
def pyIsSpace (c : Char) : Bool :=
  c = ' ' || c = '\t' || c = '\n' || c = '\r' || c = '\x0b' || c = '\x0c'

/-- JSON whitespace skipped by `json.loads` between tokens (RFC 8259). -/
def jsonIsWs (c : Char) : Bool :=
  c = ' ' || c = '\t' || c = '\n' || c = '\r'

/-- Python `str.strip()`: drop leading and trailing whitespace. -/
def pyStrip (s : List Char) : List Char :=
  ((s.dropWhile pyIsSpace).reverse.dropWhile pyIsSpace).reverse

/-- Python `str.lower()` (ASCII case folding, as `Char.toLower`). -/
def pyLower (s : List Char) : List Char := s.map Char.toLower

/-- Values produced by Python's `json.loads`. Numbers keep Python's int/float
distinction; a float keeps its source lexeme (the embedding never computes with
float values; they are only rendered into warning text). An object keeps its
members in source order; lookup takes the last binding for a key, as building a
Python dict member by member does. -/
inductive JValue where
  | null
  | bool (b : Bool)
  | int (n : Int)
  | float (lexeme : List Char)
  | str (s : List Char)
  | arr (elems : List JValue)
  | obj (fields : List (List Char × JValue))

/-- Lookup in a parsed JSON object: Python builds the dict member by member, so
a repeated key keeps its last value. -/
def objGet (fields : List (List Char × JValue)) (k : List Char) : Option JValue :=
  fields.foldl (fun acc kv => if kv.1 = k then some kv.2 else acc) none

/-- Hexadecimal digit value, for `\uXXXX` escapes. -/
def hexVal (c : Char) : Option Nat :=
  if '0' ≤ c ∧ c ≤ '9' then some (c.toNat - '0'.toNat)
  else if 'a' ≤ c ∧ c ≤ 'f' then some (c.toNat - 'a'.toNat + 10)
  else if 'A' ≤ c ∧ c ≤ 'F' then some (c.toNat - 'A'.toNat + 10)
  else none

/-- Value of the four hex digits of a `\uXXXX` escape. -/
def hex4 (a b c d : Char) : Option Nat := do
  let x ← hexVal a
  let y ← hexVal b
  let z ← hexVal c
  let w ← hexVal d
  return ((x * 16 + y) * 16 + z) * 16 + w

/-- Character denoted by a two-character escape `\e`, when `e` is one of the
eight JSON escapes. -/
def escChar : Char → Option Char
  | '"' => some '"'
  | '\\' => some '\\'
  | '/' => some '/'
  | 'b' => some '\x08'
  | 'f' => some '\x0c'
  | 'n' => some '\n'
  | 'r' => some '\r'
  | 't' => some '\t'
  | _ => none

/-- Code units of a JSON string body after the opening quote, per CPython's
strict scanner: runs to the closing quote, decodes the two-character escapes
and `\uXXXX` (as its raw 16-bit unit), and rejects raw control characters.
Returns the units and the input after the closing quote. -/
def parseStringUnits : List Char → Option (List Nat × List Char)
  | [] => none
  | '"' :: rest => some ([], rest)
  | '\\' :: 'u' :: a :: b :: c :: d :: rest2 =>
    match hex4 a b c d with
    | none => none
    | some n => (parseStringUnits rest2).map (fun p => (n :: p.1, p.2))
  | '\\' :: e :: rest2 =>
    match escChar e with
    | some ec => (parseStringUnits rest2).map (fun p => (ec.toNat :: p.1, p.2))
    | none => none
  | ['\\'] => none
  | c :: rest =>
    if c.toNat < 0x20 then none
    else (parseStringUnits rest).map (fun p => (c.toNat :: p.1, p.2))

/-- Combine an adjacent high/low surrogate pair into one scalar, as CPython's
scanner does for consecutive `\uXXXX` escapes (surrogate units can only come
from escapes, raw characters are always scalars). Deviation: a lone surrogate,
which Python keeps in the resulting str, is not a Unicode scalar value and
cannot inhabit `Char`; `Char.ofNat` maps it to U+0000. No claim involves
surrogates. -/
def combineSurrogates : Option Nat → List Nat → List Char
  | none, [] => []
  | some h, [] => [Char.ofNat h]
  | none, x :: rest =>
    if 0xD800 ≤ x ∧ x ≤ 0xDBFF then combineSurrogates (some x) rest
    else Char.ofNat x :: combineSurrogates none rest
  | some h, x :: rest =>
    if 0xDC00 ≤ x ∧ x ≤ 0xDFFF then
      Char.ofNat (0x10000 + (h - 0xD800) * 0x400 + (x - 0xDC00)) :: combineSurrogates none rest
    else if 0xD800 ≤ x ∧ x ≤ 0xDBFF then
      Char.ofNat h :: combineSurrogates (some x) rest
    else Char.ofNat h :: Char.ofNat x :: combineSurrogates none rest

/-- Body of a JSON string after the opening quote: the decoded characters and
the input after the closing quote. -/
def parseStringBody (s : List Char) : Option (List Char × List Char) :=
  (parseStringUnits s).map (fun p => (combineSurrogates none p.1, p.2))

/-- Natural value of a run of decimal digit characters. -/
def digitsToNat (ds : List Char) : Nat :=
  ds.foldl (fun a c => a * 10 + (c.toNat - '0'.toNat)) 0

/-- Integer part of a JSON number after the optional sign: `0`, or a nonzero
digit followed by digits (Python json's `0|[1-9]\d*`). Returns the digit
characters and the rest of the input. -/
def parseIntPart : List Char → Option (List Char × List Char)
  | '0' :: rest => some (['0'], rest)
  | c :: rest =>
    if c.isDigit then some (c :: rest.takeWhile Char.isDigit, rest.dropWhile Char.isDigit)
    else none
  | [] => none

/-- Optional fraction group `(\.\d+)?`: matches fully or is skipped. -/
def parseFrac : List Char → (List Char × List Char)
  | '.' :: rest =>
    match rest.takeWhile Char.isDigit with
    | [] => ([], '.' :: rest)
    | ds => ('.' :: ds, rest.dropWhile Char.isDigit)
  | s => ([], s)

/-- Optional exponent group `([eE][-+]?\d+)?`: matches fully or is skipped. -/
def parseExp (s : List Char) : (List Char × List Char) :=
  match s with
  | e :: rest =>
    if e = 'e' ∨ e = 'E' then
      match rest with
      | sg :: rest2 =>
        if sg = '+' ∨ sg = '-' then
          match rest2.takeWhile Char.isDigit with
          | [] => ([], s)
          | ds => (e :: sg :: ds, rest2.dropWhile Char.isDigit)
        else
          match rest.takeWhile Char.isDigit with
          | [] => ([], s)
          | ds => (e :: ds, rest.dropWhile Char.isDigit)
      | [] => ([], s)
    else ([], s)
  | [] => ([], s)

/-- JSON number at the head of the input, per Python json's NUMBER_RE
`(-?(?:0|[1-9]\d*))(\.\d+)?([eE][-+]?\d+)?`: a token with neither fraction nor
exponent becomes a Python int; any other becomes a float, kept as its lexeme. -/
def parseNumber (s : List Char) : Option (JValue × List Char) :=
  match s with
  | '-' :: t =>
    match parseIntPart t with
    | none => none
    | some (ip, r1) =>
      let fr := parseFrac r1
      let ex := parseExp fr.2
      if fr.1 = [] ∧ ex.1 = [] then some (JValue.int (-(digitsToNat ip : Int)), ex.2)
      else some (JValue.float ('-' :: ip ++ fr.1 ++ ex.1), ex.2)
  | _ =>
    match parseIntPart s with
    | none => none
    | some (ip, r1) =>
      let fr := parseFrac r1
      let ex := parseExp fr.2
      if fr.1 = [] ∧ ex.1 = [] then some (JValue.int (digitsToNat ip : Int), ex.2)
      else some (JValue.float (ip ++ fr.1 ++ ex.1), ex.2)

/-- Match an exact (case-sensitive) literal at the head of the input, returning
the rest. -/
def exactPrefix : List Char → List Char → Option (List Char)
  | [], s => some s
  | _ :: _, [] => none
  | p :: ps, c :: cs => if p = c then exactPrefix ps cs else none

mutual

/-- One JSON value at the head of the input (whitespace already skipped by the
caller), per CPython's scanner. The fuel bounds recursion depth; callers pass
`length + 1`, which suffices since each descent consumes a character. -/
def parseValue : Nat → List Char → Option (JValue × List Char)
  | 0, _ => none
  | fuel + 1, s =>
    match s with
    | [] => none
    | c :: rest =>
      if c = '\x7b' then
        match rest.dropWhile jsonIsWs with
        | '\x7d' :: r => some (JValue.obj [], r)
        | s1 => parseMembers fuel s1 []
      else if c = '[' then
        match rest.dropWhile jsonIsWs with
        | ']' :: r => some (JValue.arr [], r)
        | s1 => parseElems fuel s1 []
      else if c = '"' then
        (parseStringBody rest).map (fun p => (JValue.str p.1, p.2))
      else
        match exactPrefix (strL "true") s with
        | some r => some (JValue.bool true, r)
        | none =>
        match exactPrefix (strL "false") s with
        | some r => some (JValue.bool false, r)
        | none =>
        match exactPrefix (strL "null") s with
        | some r => some (JValue.null, r)
        | none =>
        match exactPrefix (strL "NaN") s with
        | some r => some (JValue.float (strL "NaN"), r)
        | none =>
        match exactPrefix (strL "Infinity") s with
        | some r => some (JValue.float (strL "Infinity"), r)
        | none =>
        match exactPrefix (strL "-Infinity") s with
        | some r => some (JValue.float (strL "-Infinity"), r)
        | none => parseNumber s

/-- Members of a nonempty JSON object, starting at a key: key string, `:`,
value, then `,` and further members or the closing brace. Members accumulate in
source order. -/
def parseMembers : Nat → List Char → List (List Char × JValue) →
    Option (JValue × List Char)
  | 0, _, _ => none
  | fuel + 1, s, acc =>
    match s with
    | '"' :: rest =>
      match parseStringBody rest with
      | none => none
      | some (k, r1) =>
        match r1.dropWhile jsonIsWs with
        | ':' :: r2 =>
          match parseValue fuel (r2.dropWhile jsonIsWs) with
          | none => none
          | some (v, r3) =>
            match r3.dropWhile jsonIsWs with
            | ',' :: r4 => parseMembers fuel (r4.dropWhile jsonIsWs) (acc ++ [(k, v)])
            | '\x7d' :: r4 => some (JValue.obj (acc ++ [(k, v)]), r4)
            | _ => none
        | _ => none
    | _ => none

/-- Elements of a nonempty JSON array, starting at a value. -/
def parseElems : Nat → List Char → List JValue → Option (JValue × List Char)
  | 0, _, _ => none
  | fuel + 1, s, acc =>
    match parseValue fuel s with
    | none => none
    | some (v, r1) =>
      match r1.dropWhile jsonIsWs with
      | ',' :: r2 => parseElems fuel (r2.dropWhile jsonIsWs) (acc ++ [v])
      | ']' :: r2 => some (JValue.arr (acc ++ [v]), r2)
      | _ => none

end

/-- Python `json.loads`: skip leading whitespace, parse one value, and require
only whitespace after it ("Extra data" otherwise). `none` stands for
`json.JSONDecodeError`. CPython additionally raises RecursionError past its
recursion limit on deeply nested input — a resource bound this embedding does
not model (the fuel `length + 1` always suffices mathematically). -/
def jsonLoads (s : List Char) : Option JValue :=
  let t := s.dropWhile jsonIsWs
  match parseValue (t.length + 1) t with
  | none => none
  | some (v, rest) => if rest.dropWhile jsonIsWs = [] then some v else none

/-- Characters before and after the first `}` of the input. The regex
`\{[^}]*"F"\s*:\s*\d+[^}]*\}` must close at the first `}` after its opening
brace, since every other pattern element matches only non-`}` characters. -/
def splitAtFirstClose : List Char → Option (List Char × List Char)
  | [] => none
  | c :: t =>
    if c = '\x7d' then some ([], t)
    else (splitAtFirstClose t).map (fun p => (c :: p.1, p.2))

/-- Does `"F"\s*:\s*\d+` match at the head of the input? -/
def fieldColonDigitAt (field : List Char) (t : List Char) : Bool :=
  match exactPrefix ('"' :: (field ++ ['"'])) t with
  | none => false
  | some r =>
    match r.dropWhile pyIsSpace with
    | ':' :: r2 =>
      match r2.dropWhile pyIsSpace with
      | d :: _ => d.isDigit
      | [] => false
    | _ => false

/-- Does `"F"\s*:\s*\d+` match starting anywhere in the input? -/
def hasFieldColonDigit (field : List Char) : List Char → Bool
  | [] => false
  | c :: t => fieldColonDigitAt field (c :: t) || hasFieldColonDigit field t

/-- Model of `re.search(r'\{[^}]*"F"\s*:\s*\d+[^}]*\}', s)` returning group 0:
scan start positions left to right; at an opening brace the match, if it
exists, runs exactly to the first later `}`, and requires a `"F"\s*:\s*\d+`
occurrence between the braces. Assumes the interpolated field name has no
regex metacharacters (true of the default "O"). -/
def findJsonMatch (field : List Char) : List Char → Option (List Char)
  | [] => none
  | c :: t =>
    if c = '\x7b' then
      match splitAtFirstClose t with
      | some p =>
        if hasFieldColonDigit field p.1 then some ('\x7b' :: (p.1 ++ ['\x7d']))
        else findJsonMatch field t
      | none => findJsonMatch field t
    else findJsonMatch field t

mutual

/-- Python `str()` of a parsed JSON value, as the f-string in the invalid-score
warning renders it. Floats render as their source lexeme (Python instead
re-renders the shortest round-tripping decimal; no claim depends on that). -/
def pyStr : JValue → List Char
  | .null => strL "None"
  | .bool true => strL "True"
  | .bool false => strL "False"
  | .int n => strL (toString n)
  | .float lx => lx
  | .str s => s
  | .arr xs => '[' :: (pyReprList xs ++ [']'])
  | .obj fs => '\x7b' :: (pyReprFields fs ++ ['\x7d'])

/-- Python `repr()` of a parsed JSON value: as `str()` except strings gain
quotes (Python escapes special characters inside; no claim renders such a
value). -/
def pyRepr : JValue → List Char
  | .null => strL "None"
  | .bool true => strL "True"
  | .bool false => strL "False"
  | .int n => strL (toString n)
  | .float lx => lx
  | .str s => '\x27' :: (s ++ ['\x27'])
  | .arr xs => '[' :: (pyReprList xs ++ [']'])
  | .obj fs => '\x7b' :: (pyReprFields fs ++ ['\x7d'])

/-- Comma-separated `repr`s of list elements. -/
def pyReprList : List JValue → List Char
  | [] => []
  | [v] => pyRepr v
  | v :: vs => pyRepr v ++ (strL ", " ++ pyReprList vs)

/-- Comma-separated `'key': repr(value)` renderings of dict members. -/
def pyReprFields : List (List Char × JValue) → List Char
  | [] => []
  | [kv] => '\x27' :: (kv.1 ++ ('\x27' :: ':' :: ' ' :: pyRepr kv.2))
  | kv :: fs =>
    ('\x27' :: (kv.1 ++ ('\x27' :: ':' :: ' ' :: pyRepr kv.2))) ++ (strL ", " ++ pyReprFields fs)

end

/-- Warning text when the regex finds no candidate JSON object. -/
def noMatchWarning (field : List Char) : List Char :=
  strL "No JSON object with '" ++ (field ++ strL "' field found in response")

/-- Warning text when `json.loads` fails on the matched substring. The Python
warning interpolates the JSONDecodeError text after this prefix; the embedding
elides the detail (no claim depends on it). -/
def failedParseWarning : List Char := strL "Failed to parse JSON: "

/-- Warning text when the parsed object lacks the score field (or maps it to
null, which `dict.get` also reports as absent). -/
def missingFieldWarning (field : List Char) : List Char :=
  strL "Missing '" ++ (field ++ strL "' field in parsed JSON")

/-- Warning text when the score value is not a plain integer 0, 1 or 2. -/
def invalidScoreWarning (field : List Char) (score : JValue) : List Char :=
  strL "Invalid " ++ (field ++ (strL " score: " ++ (pyStr score ++ strL " (expected 0, 1, or 2)")))

/-- Python `isinstance(x, int)`: true for ints and for bools (bool subclasses
int in Python). -/
def pyIsInt : JValue → Bool
  | .int _ => true
  | .bool _ => true
  | _ => false

/-- Python `x in [0, 1, 2]` for an int-like value: `True == 1` and
`False == 0`, so both bools are members. -/
def pyIntIn012 : JValue → Bool
  | .int n => n = 0 || n = 1 || n = 2
  | .bool _ => true
  | _ => false

/-- Exception that would escape `JsonResponseParser.parse` uncaught
(AttributeError on `data.get`), reachable only if `json.loads` returned a
non-dict — which the brace-anchored regex rules out; see
`jsonResponseParser_parse_total`. -/
inductive PyExn where
  | attributeError

/-- Model of `JsonResponseParser.parse`
(src/llm_ensemble/infer/adapters/parsers/json_response_parser.py): find the
first `\{[^}]*"F"\s*:\s*\d+[^}]*\}` match, `json.loads` it (JSONDecodeError
caught as a warning), read the score field with `dict.get`, and accept only a
value that Python takes for an integer in `[0, 1, 2]`. -/
def JsonResponseParser.parse (score_field : List Char) (raw_text : List Char) :
    Except PyExn (Option JValue × List (List Char)) :=
  match findJsonMatch score_field raw_text with
  | none => .ok (none, [noMatchWarning score_field])
  | some json_str =>
    match jsonLoads json_str with
    | none => .ok (none, [failedParseWarning])
    | some (JValue.obj fields) =>
      match objGet fields score_field with
      | none => .ok (none, [missingFieldWarning score_field])
      | some JValue.null => .ok (none, [missingFieldWarning score_field])
      | some score =>
        if pyIsInt score && pyIntIn012 score then .ok (some score, [])
        else .ok (none, [invalidScoreWarning score_field score])
    | some _ => .error PyExn.attributeError

/-- Default score field of `JsonResponseParser` and the field used by the
thomas-et-al format. -/
def oField : List Char := strL "O"

/-- Model of `parse_thomas_response` (src/llm_ensemble/infer/parsers/thomas.py).
Its body is, line for line, the body of `JsonResponseParser.parse` specialised
to the field "O" — same regex, same warnings — so it is defined as that
instance. -/
def parse_thomas_response (raw_text : List Char) :
    Except PyExn (Option JValue × List (List Char)) :=
  JsonResponseParser.parse oField raw_text

/-- Case-insensitive literal match at the head of the input (ASCII case
folding, as Python `re.IGNORECASE` over the claims' alphabet), returning the
rest. -/
def ciPrefix : List Char → List Char → Option (List Char)
  | [], s => some s
  | _ :: _, [] => none
  | p :: ps, c :: cs => if p.toLower = c.toLower then ciPrefix ps cs else none

/-- Match of `LABEL:\s*(relevant|partially|irrelevant)` (IGNORECASE) at the
head of the input: the pattern's `\s*` and the alternation are deterministic
here (the alternatives start with letters, never whitespace, and are tried in
source order). Returns the lowercased group 1 and the input after the match
end. -/
def matchLabelAt (s : List Char) : Option (List Char × List Char) :=
  match ciPrefix (strL "label:") s with
  | none => none
  | some r1 =>
    match ciPrefix (strL "relevant") (r1.dropWhile pyIsSpace) with
    | some rest => some (strL "relevant", rest)
    | none =>
      match ciPrefix (strL "partially") (r1.dropWhile pyIsSpace) with
      | some rest => some (strL "partially", rest)
      | none =>
        match ciPrefix (strL "irrelevant") (r1.dropWhile pyIsSpace) with
        | some rest => some (strL "irrelevant", rest)
        | none => none

/-- Model of `re.search` for the LABEL pattern: first start position, left to
right, at which `matchLabelAt` succeeds. -/
def searchLabel : List Char → Option (List Char × List Char)
  | [] => none
  | c :: t =>
    match matchLabelAt (c :: t) with
    | some r => some r
    | none => searchLabel t

/-- Match of `REASONING:\s*(.+)` (IGNORECASE | DOTALL) at the head of the
input, returning group 1. With DOTALL the greedy `.+` takes everything to the
end; when nothing follows the whitespace, backtracking hands `.+` the last
whitespace character; when nothing follows the colon at all, the match fails
here. -/
def matchReasoningAt (s : List Char) : Option (List Char) :=
  match ciPrefix (strL "reasoning:") s with
  | none => none
  | some rest =>
    match rest.dropWhile pyIsSpace with
    | [] =>
      match rest.getLast? with
      | some c => some [c]
      | none => none
    | g => some g

/-- Model of `re.search` for the REASONING pattern: first start position at
which `matchReasoningAt` succeeds. -/
def searchReasoning : List Char → Option (List Char)
  | [] => none
  | c :: t =>
    match matchReasoningAt (c :: t) with
    | some r => some r
    | none => searchReasoning t

/-- Fallback warning appended when a label is extracted by keyword scan. -/
def fbWarning (label : List Char) : List Char :=
  strL "Fallback: extracted '" ++ (label ++ strL "' from unstructured text")

/-- Warning appended when the rationale falls back to the text after the
label. -/
def rationaleFallbackWarning : List Char :=
  strL "Fallback: used text after label as rationale"

/-- Warning appended when no rationale can be found at all. -/
def noRationaleWarning : List Char := strL "No rationale found in output"

/-- Message of the ValueError raised when no label is extractable (the Python
f-string interpolates the first 100 characters of the stripped text). -/
def valueErrorMsg (stripped : List Char) : List Char :=
  strL "Could not extract valid label from output: " ++ stripped.take 100

/-- Message of the (unreachable) ValueError for a label outside the three
valid values. -/
def invalidLabelMsg (label : List Char) : List Char :=
  strL "Invalid label: " ++ label

/-- Fixed heuristic `score_map` of `parse_judgement`:
relevant 0.9, partially 0.5, irrelevant 0.1. The final else is a Python
KeyError, unreachable because the label was validated just before lookup. -/
def scoreMap (label : List Char) : ℚ :=
  if label = strL "relevant" then 0.9
  else if label = strL "partially" then 0.5
  else if label = strL "irrelevant" then 0.1
  else 0

/-- Result quadruple of `parse_judgement`. `rationale = none` models Python
`None`; `some []` models the empty string. -/
structure ParsedJudgement where
  label : List Char
  score : ℚ
  rationale : Option (List Char)
  warnings : List (List Char)

/-- Python's substring test `pat in s` (`containsSub pat s` is true when `pat`
occurs contiguously in `s`). -/
def containsSub (pat : List Char) : List Char → Bool
  | [] => pat.isEmpty
  | c :: t => pat.isPrefixOf (c :: t) || containsSub pat t

/-- Label and fallback warnings of `parse_judgement` on the stripped text:
either the regex label (lowercased group), or the keyword-scan fallback over
the lowercased text, or `none` for the raise. -/
def labelFromText (stripped : List Char) : Option (List Char × List (List Char)) :=
  match searchLabel stripped with
  | some g => some (g.1, [])
  | none =>
    let tl := pyLower stripped
    if containsSub (strL "relevant") tl ∧ ¬ containsSub (strL "irrelevant") tl then
      if containsSub (strL "partially") tl ∨ containsSub (strL "partial") tl then
        some (strL "partially", [fbWarning (strL "partially")])
      else some (strL "relevant", [fbWarning (strL "relevant")])
    else if containsSub (strL "irrelevant") tl then
      some (strL "irrelevant", [fbWarning (strL "irrelevant")])
    else none

/-- Model of `parse_judgement` (src/llm_ensemble/infer/domain/parser.py): strip
the input; extract the label by the LABEL regex, else by keyword fallback, else
raise (`Except.error`); validate the label; extract the rationale by the
REASONING regex, else from the text after the label match (with a warning when
nonempty), else record the no-rationale warning; score by the fixed map. -/
def parse_judgement (raw0 : List Char) : Except (List Char) ParsedJudgement :=
  let raw := pyStrip raw0
  match labelFromText raw with
  | none => .error (valueErrorMsg raw)
  | some lw =>
    if lw.1 = strL "relevant" ∨ lw.1 = strL "partially" ∨ lw.1 = strL "irrelevant" then
      match searchReasoning raw with
      | some g => .ok ⟨lw.1, scoreMap lw.1, some (pyStrip g), lw.2⟩
      | none =>
        match searchLabel raw with
        | some m =>
          if pyStrip m.2 ≠ [] then
            .ok ⟨lw.1, scoreMap lw.1, some (pyStrip m.2), lw.2 ++ [rationaleFallbackWarning]⟩
          else .ok ⟨lw.1, scoreMap lw.1, some (pyStrip m.2), lw.2⟩
        | none => .ok ⟨lw.1, scoreMap lw.1, none, lw.2 ++ [noRationaleWarning]⟩
    else .error (invalidLabelMsg lw.1)

/-- Model of `normalize_confidence` (src/llm_ensemble/infer/domain/parser.py):
scale the score by 0.8 for the "partially" label, pass it through otherwise. -/
def normalize_confidence (score : ℚ) (label : List Char) : ℚ :=
  if label = strL "partially" then score * 0.8 else score

/-- Observable events of one `HuggingFaceInferenceClient.infer` run: each
invocation of the retryable attempt (the try-block, carrying the attempt
number) and each backoff `time.sleep` (carrying its duration in time units). -/
inductive RetryEvent where
  | call (attempt : Nat)
  | sleep (units : Nat)

/-- Is the event an invocation of the capability? -/
def RetryEvent.isCall : RetryEvent → Bool
  | .call _ => true
  | .sleep _ => false

/-- Outcome and event log of one `infer` run: `ok` carries the try-block's
result together with the `retries` counter read when the judgement was built;
`error` carries the RuntimeError message of retry exhaustion. -/
structure RetryTrace (A : Type) where
  outcome : Except (List Char) (A × Nat)
  events : List RetryEvent

/-- Message of the RuntimeError raised on retry exhaustion:
`f"Inference failed after {retries} retries for {query_id}/{docid}: {last_error}"`. -/
def fatalMsg (retries : Nat) (query_id docid : List Char) (lastError : Option (List Char)) :
    List Char :=
  strL "Inference failed after " ++ (strL (toString retries) ++ (strL " retries for " ++
    (query_id ++ ('/' :: (docid ++ (':' :: ' ' ::
      (match lastError with | some m => m | none => strL "None")))))))

/-- Loop body of `HuggingFaceInferenceClient.infer`
(src/llm_ensemble/infer/adapters/huggingface.py): `fuel` is the number of loop
iterations `for attempt in range(max_retries + 1)` still to run (the fuel-0
case is Python's raise after the loop, reachable only through `break`). On a
successful attempt the judgement is returned with the current `retries`
counter; on an exception the counter increments, and when `attempt <
max_retries` the controller sleeps `2 ** attempt` and continues, else it
breaks to the raise, whose message carries the (query, document) identity and
`str` of the last error. -/
def retryGo {E A : Type} (call : Nat → Except E A) (errStr : E → List Char)
    (query_id docid : List Char) (max_retries : Nat) :
    Nat → Nat → Nat → Option (List Char) → List RetryEvent → RetryTrace A
  | 0, _, retries, lastError, events =>
    ⟨.error (fatalMsg retries query_id docid lastError), events.reverse⟩
  | fuel + 1, attempt, retries, _lastError, events =>
    match call attempt with
    | .ok a => ⟨.ok (a, retries), (RetryEvent.call attempt :: events).reverse⟩
    | .error e =>
      if attempt < max_retries then
        retryGo call errStr query_id docid max_retries fuel (attempt + 1) (retries + 1)
          (some (errStr e)) (RetryEvent.sleep (2 ^ attempt) :: RetryEvent.call attempt :: events)
      else
        ⟨.error (fatalMsg (retries + 1) query_id docid (some (errStr e))),
          (RetryEvent.call attempt :: events).reverse⟩

/-- Model of the retry controller `HuggingFaceInferenceClient.infer`: the
try-block (network call, text extraction, parse, judgement assembly) is the
injected capability `call`, indexed by the attempt number; `errStr` is Python
`str` of a raised exception. Attempts run for `attempt in
range(max_retries + 1)` starting from attempt 0 with `retries = 0` and no
last error. -/
def HuggingFaceInferenceClient.infer {E A : Type} (call : Nat → Except E A)
    (errStr : E → List Char) (query_id docid : List Char) (max_retries : Nat) :
    RetryTrace A :=
  retryGo call errStr query_id docid max_retries (max_retries + 1) 0 0 none []

/-- Exception raised inside one attempt of `infer`: a network/provider error
from `_post`/`_extract_text`, or the ValueError that `parse_judgement` raises
for text with no extractable label. The bare `except Exception` of the loop
catches both alike. -/
inductive HFAttemptError (E : Type) where
  | network (e : E)
  | parseFailure (msg : List Char)

/-- Python `str` of an `HFAttemptError`, given `str` of the network error. -/
def HFAttemptError.str {E : Type} (errStr : E → List Char) : HFAttemptError E → List Char
  | .network e => errStr e
  | .parseFailure msg => msg

/-- Fields of the ModelJudgement that the try-block of `infer` assembles from a
successful parse (identity and latency bookkeeping omitted; `retries` is added
by the controller). -/
structure HFJudgement where
  label : List Char
  score : ℚ
  confidence : ℚ
  rationale : Option (List Char)
  raw_text : List Char
  warnings : List (List Char)

/-- Body of the try-block of `HuggingFaceInferenceClient.infer`, as a
capability for the retry controller: run the network call (injected as
`post`), then `parse_judgement` and `normalize_confidence` on the returned
text, and assemble the judgement. An exception from either step becomes the
attempt's error. -/
def hfAttempt {E : Type} (post : Nat → Except E (List Char)) (i : Nat) :
    Except (HFAttemptError E) HFJudgement :=
  match post i with
  | .error e => .error (HFAttemptError.network e)
  | .ok raw_text =>
    match parse_judgement raw_text with
    | .error m => .error (HFAttemptError.parseFailure m)
    | .ok pj =>
      .ok ⟨pj.label, pj.score, normalize_confidence pj.score pj.label, pj.rationale,
        raw_text, pj.warnings⟩

/-- Python `float()` of a validated Strategy B label: an int keeps its value,
`float(True) = 1.0`, `float(False) = 0.0`. Other constructors cannot reach the
call (the parser only returns values passing `isinstance(score, int)`); they
map to 0. -/
def pyFloat : JValue → ℚ
  | .int n => (n : ℚ)
  | .bool b => if b then 1 else 0
  | _ => 0

/-- Fields of the ModelJudgement dict that `send_inference_request` builds
(model/version/latency/cost bookkeeping omitted). -/
structure ORJudgement where
  query_id : List Char
  docid : List Char
  label : Option JValue
  score : Option ℚ
  confidence : Option ℚ
  rationale : Option (List Char)
  raw_text : List Char
  retries : Nat
  warnings : List (List Char)

/-- Model of the judgement assembly of `send_inference_request`
(src/llm_ensemble/infer/providers/openrouter.py): the model's output text
`raw_text` is parsed by the thomas parser (the configured default); the record
carries the text verbatim, `label` as parsed, `score = float(label)` when the
label is present else `None`, no confidence, no rationale, `retries = 0`, and
the warnings that began empty and then took the parse warnings. An exception
from the parser would propagate (`Except.error`). -/
def send_inference_request (raw_text : List Char) (query_id docid : List Char) :
    Except PyExn ORJudgement :=
  match parse_thomas_response raw_text with
  | .error e => .error e
  | .ok lw =>
    .ok ⟨query_id, docid, lw.1,
      (match lw.1 with | some v => some (pyFloat v) | none => none),
      none, none, raw_text, 0, [] ++ lw.2⟩

/-- Every match the Strategy B regex model returns is brace-delimited. -/
theorem findJsonMatch_shape (field : List Char) :
    ∀ s m, findJsonMatch field s = some m → ∃ seg, m = '\x7b' :: (seg ++ ['\x7d']) := by
  intro s
  induction s with
  | nil => intro m h; simp [findJsonMatch] at h
  | cons c t ih =>
    intro m h
    simp only [findJsonMatch] at h
    split at h
    · split at h
      · split at h
        · cases h
          exact ⟨_, rfl⟩
        · exact ih m h
      · exact ih m h
    · exact ih m h

/-- A successful `parseMembers` always yields an object value. -/
theorem parseMembers_obj :
    ∀ fuel s acc v r, parseMembers fuel s acc = some (v, r) → ∃ fs, v = JValue.obj fs := by
  intro fuel
  induction fuel with
  | zero => intro s acc v r h; simp [parseMembers] at h
  | succ n ih =>
    intro s acc v r h
    simp only [parseMembers] at h
    split at h
    · split at h
      · simp at h
      · split at h
        · split at h
          · simp at h
          · split at h
            · exact ih _ _ _ _ h
            · cases h
              exact ⟨_, rfl⟩
            · simp at h
        · simp at h
    · simp at h

/-- A value parsed from input starting at an opening brace is an object. -/
theorem parseValue_brace_obj :
    ∀ fuel t v r, parseValue fuel ('\x7b' :: t) = some (v, r) → ∃ fs, v = JValue.obj fs := by
  intro fuel
  cases fuel with
  | zero => intro t v r h; simp [parseValue] at h
  | succ n =>
    intro t v r h
    simp only [parseValue, if_true] at h
    split at h
    · cases h
      exact ⟨_, rfl⟩
    · exact parseMembers_obj n _ _ _ _ h

/-- `json.loads` of a string starting at an opening brace, when it succeeds,
yields an object (Python: a dict). -/
theorem jsonLoads_brace_obj :
    ∀ t v, jsonLoads ('\x7b' :: t) = some v → ∃ fs, v = JValue.obj fs := by
  intro t v h
  simp only [jsonLoads] at h
  rw [List.dropWhile_cons] at h
  norm_num [jsonIsWs] at h
  split at h
  · exact absurd h (by simp)
  · split at h
    · cases h
      exact parseValue_brace_obj _ _ _ _ (by assumption)
    · exact absurd h (by simp)

/-- `JsonResponseParser.parse` is total: the AttributeError branch (a non-dict
from `json.loads`) is unreachable, because the matched substring starts at an
opening brace. -/
theorem jsonResponseParser_parse_total (field raw : List Char) :
    ∃ res, JsonResponseParser.parse field raw = .ok res := by
  cases hm : findJsonMatch field raw with
  | none =>
    simp only [JsonResponseParser.parse, hm]
    exact ⟨_, rfl⟩
  | some m =>
    obtain ⟨seg, rfl⟩ := findJsonMatch_shape field raw m hm
    cases hl : jsonLoads ('\x7b' :: (seg ++ ['\x7d'])) with
    | none =>
      simp only [JsonResponseParser.parse, hm, hl]
      exact ⟨_, rfl⟩
    | some v =>
      obtain ⟨fs, rfl⟩ := jsonLoads_brace_obj _ _ hl
      cases ho : objGet fs field with
      | none =>
        simp only [JsonResponseParser.parse, hm, hl, ho]
        exact ⟨_, rfl⟩
      | some sc =>
        cases sc with
        | null =>
          simp only [JsonResponseParser.parse, hm, hl, ho]
          exact ⟨_, rfl⟩
        | bool b =>
          simp only [JsonResponseParser.parse, hm, hl, ho]
          split <;> exact ⟨_, rfl⟩
        | int n =>
          simp only [JsonResponseParser.parse, hm, hl, ho]
          split <;> exact ⟨_, rfl⟩
        | float lx =>
          simp only [JsonResponseParser.parse, hm, hl, ho]
          split <;> exact ⟨_, rfl⟩
        | str s2 =>
          simp only [JsonResponseParser.parse, hm, hl, ho]
          split <;> exact ⟨_, rfl⟩
        | arr xs =>
          simp only [JsonResponseParser.parse, hm, hl, ho]
          split <;> exact ⟨_, rfl⟩
        | obj fs2 =>
          simp only [JsonResponseParser.parse, hm, hl, ho]
          split <;> exact ⟨_, rfl⟩

/-- Claim C1: for every input string whose first match of the pattern
`\{[^}]*"O"\s*:\s*\d+[^}]*\}` is a valid JSON object whose "O" field is an
integer n in 0, 1, 2, the Strategy B parser (`JsonResponseParser.parse` with
field "O", and `parse_thomas_response`) returns the label n with an empty
warnings list, regardless of any prose before or after the JSON object. -/
theorem strategyB_valid_object_clean_label (raw m : List Char)
    (fs : List (List Char × JValue)) (n : Int)
    (hm : findJsonMatch oField raw = some m)
    (hl : jsonLoads m = some (JValue.obj fs))
    (ho : objGet fs oField = some (JValue.int n))
    (hn : n = 0 ∨ n = 1 ∨ n = 2) :
    JsonResponseParser.parse oField raw = .ok (some (JValue.int n), []) ∧
    parse_thomas_response raw = .ok (some (JValue.int n), []) := by
  have hc : (pyIsInt (JValue.int n) && pyIntIn012 (JValue.int n)) = true := by
    rcases hn with h | h | h <;> subst h <;> decide
  have h : JsonResponseParser.parse oField raw = .ok (some (JValue.int n), []) := by
    simp only [JsonResponseParser.parse, hm, hl, ho]
    rw [if_pos hc]
  exact ⟨h, h⟩

/-- Witness for C1 at a concrete input with prose around the JSON object. -/
theorem strategyB_valid_object_clean_label_witness :
    JsonResponseParser.parse oField (strL "The answer is \x7b\"O\": 1\x7d based on...") =
      .ok (some (JValue.int 1), []) ∧
    parse_thomas_response (strL "The answer is \x7b\"O\": 1\x7d based on...") =
      .ok (some (JValue.int 1), []) :=
  strategyB_valid_object_clean_label (strL "The answer is \x7b\"O\": 1\x7d based on...")
    (strL "\x7b\"O\": 1\x7d") [(strL "O", JValue.int 1)] 1 rfl rfl rfl
    (Or.inr (Or.inl rfl))

/-- The out-of-range warning and the missing-field warning have distinct
texts, whatever the offending value renders as. -/
theorem invalidScoreWarning_ne_missingFieldWarning (field : List Char) (v : JValue) :
    invalidScoreWarning field v ≠ missingFieldWarning field := by
  intro h
  have h1 : (invalidScoreWarning field v).head? = (missingFieldWarning field).head? := by rw [h]
  have h2 : (invalidScoreWarning field v).head? = some 'I' := rfl
  have h3 : (missingFieldWarning field).head? = some 'M' := rfl
  rw [h2, h3] at h1
  exact absurd h1 (by decide)

/-- Reduction of `JsonResponseParser.parse` when the matched object carries a
non-null score value: the result is decided by the Python int test. -/
theorem parse_some_score (field raw m : List Char) (fs : List (List Char × JValue))
    (v : JValue) (hm : findJsonMatch field raw = some m)
    (hl : jsonLoads m = some (JValue.obj fs)) (ho : objGet fs field = some v)
    (hv : v ≠ JValue.null) :
    JsonResponseParser.parse field raw =
      (if (pyIsInt v && pyIntIn012 v) = true then .ok (some v, [])
       else .ok (none, [invalidScoreWarning field v])) := by
  cases v <;>
    (simp only [JsonResponseParser.parse, hm, hl, ho]
     try first
     | rfl
     | exact absurd rfl hv)

/-- Claim C2 (amended): the Strategy B parser is total (never raises — the
only uncaught-exception branch is unreachable), and returns `label = None`
with exactly one warning in every failure case: no matching substring, invalid
JSON in the matched substring, a missing (or null) score field, and a score
value that is not a Python integer 0, 1 or 2 — with the missing-field and
out-of-range warnings distinguished in their text. Amendment forced by the
counterexample: Python's `isinstance(score, int)` and `score in [0, 1, 2]`
accept booleans (`True == 1`, `False == 0`), so a boolean score field yields
`(True, [])` or `(False, [])`, not `(None, [warning])`; floats, strings and
out-of-range integers are rejected as the claim states. -/
theorem strategyB_error_handling (raw : List Char) :
    (∃ res, JsonResponseParser.parse oField raw = .ok res) ∧
    (∀ label warns, JsonResponseParser.parse oField raw = .ok (label, warns) →
      (label = none ↔ warns ≠ []) ∧
      (label = none → warns.length = 1) ∧
      (∀ v, label = some v → (pyIsInt v && pyIntIn012 v) = true ∧ warns = []) ∧
      (findJsonMatch oField raw = none → label = none ∧ warns = [noMatchWarning oField]) ∧
      (∀ m, findJsonMatch oField raw = some m → jsonLoads m = none →
        label = none ∧ warns = [failedParseWarning]) ∧
      (∀ m fs, findJsonMatch oField raw = some m → jsonLoads m = some (JValue.obj fs) →
        ((objGet fs oField = none ∨ objGet fs oField = some JValue.null) →
          label = none ∧ warns = [missingFieldWarning oField]) ∧
        (∀ v, objGet fs oField = some v → v ≠ JValue.null →
          (pyIsInt v && pyIntIn012 v) = false →
          label = none ∧ warns = [invalidScoreWarning oField v] ∧
            invalidScoreWarning oField v ≠ missingFieldWarning oField))) := by
  refine ⟨jsonResponseParser_parse_total oField raw, ?_⟩
  intro label warns hp
  cases hm : findJsonMatch oField raw with
  | none =>
    have hred : JsonResponseParser.parse oField raw = .ok (none, [noMatchWarning oField]) := by
      simp only [JsonResponseParser.parse, hm]
    rw [hred] at hp
    simp only [Except.ok.injEq, Prod.mk.injEq] at hp
    obtain ⟨rfl, rfl⟩ := hp
    refine ⟨by simp, by simp, ?_, fun _ => ⟨rfl, rfl⟩, ?_, ?_⟩
    · intro v hv; exact absurd hv (by simp)
    · intro m hm2 _; cases hm2
    · intro m fs hm2 _; cases hm2
  | some m =>
    cases hl : jsonLoads m with
    | none =>
      have hred : JsonResponseParser.parse oField raw = .ok (none, [failedParseWarning]) := by
        simp only [JsonResponseParser.parse, hm, hl]
      rw [hred] at hp
      simp only [Except.ok.injEq, Prod.mk.injEq] at hp
      obtain ⟨rfl, rfl⟩ := hp
      refine ⟨by simp, by simp, ?_, ?_, ?_, ?_⟩
      · intro v hv; exact absurd hv (by simp)
      · intro h; cases h
      · intro m' hm2 _; exact ⟨rfl, rfl⟩
      · intro m' fs hm2 hl2
        injection hm2 with he
        subst he
        rw [hl] at hl2
        cases hl2
    | some v =>
      cases v with
      | obj fs =>
        cases ho : objGet fs oField with
        | none =>
          have hred : JsonResponseParser.parse oField raw =
              .ok (none, [missingFieldWarning oField]) := by
            simp only [JsonResponseParser.parse, hm, hl, ho]
          rw [hred] at hp
          simp only [Except.ok.injEq, Prod.mk.injEq] at hp
          obtain ⟨rfl, rfl⟩ := hp
          refine ⟨by simp, by simp, ?_, ?_, ?_, ?_⟩
          · intro v hv; exact absurd hv (by simp)
          · intro h; cases h
          · intro m' hm2 hl2
            injection hm2 with he
            subst he
            rw [hl] at hl2
            cases hl2
          · intro m' fs' hm2 hl2
            injection hm2 with he
            subst he
            rw [hl] at hl2
            injection hl2 with he2
            cases he2
            constructor
            · intro _; exact ⟨rfl, rfl⟩
            · intro v' ho' _ _
              rw [ho] at ho'
              cases ho'
        | some sc =>
          by_cases hnull : sc = JValue.null
          · subst hnull
            have hred : JsonResponseParser.parse oField raw =
                .ok (none, [missingFieldWarning oField]) := by
              simp only [JsonResponseParser.parse, hm, hl, ho]
            rw [hred] at hp
            simp only [Except.ok.injEq, Prod.mk.injEq] at hp
            obtain ⟨rfl, rfl⟩ := hp
            refine ⟨by simp, by simp, ?_, ?_, ?_, ?_⟩
            · intro v hv; exact absurd hv (by simp)
            · intro h; cases h
            · intro m' hm2 hl2
              injection hm2 with he
              subst he
              rw [hl] at hl2
              cases hl2
            · intro m' fs' hm2 hl2
              injection hm2 with he
              subst he
              rw [hl] at hl2
              injection hl2 with he2
              cases he2
              constructor
              · intro _; exact ⟨rfl, rfl⟩
              · intro v' ho' hvn _
                rw [ho] at ho'
                injection ho' with he3
                exact absurd he3.symm hvn
          · rw [parse_some_score oField raw m fs sc hm hl ho hnull] at hp
            split at hp
            · next hacc =>
              simp only [Except.ok.injEq, Prod.mk.injEq] at hp
              obtain ⟨rfl, rfl⟩ := hp
              refine ⟨by simp, by simp, ?_, ?_, ?_, ?_⟩
              · intro v hv
                injection hv with he
                subst he
                exact ⟨hacc, rfl⟩
              · intro h; cases h
              · intro m' hm2 hl2
                injection hm2 with he
                subst he
                rw [hl] at hl2
                cases hl2
              · intro m' fs' hm2 hl2
                injection hm2 with he
                subst he
                rw [hl] at hl2
                injection hl2 with he2
                cases he2
                constructor
                · intro hcase
                  rcases hcase with h | h
                  · rw [ho] at h; cases h
                  · rw [ho] at h
                    injection h with he3
                    exact absurd he3 hnull
                · intro v' ho' _ hrej
                  rw [ho] at ho'
                  injection ho' with he3
                  subst he3
                  rw [hacc] at hrej
                  cases hrej
            · next hrej =>
              simp only [Except.ok.injEq, Prod.mk.injEq] at hp
              obtain ⟨rfl, rfl⟩ := hp
              have hrejF : (pyIsInt sc && pyIntIn012 sc) = false := by
                cases hb : (pyIsInt sc && pyIntIn012 sc)
                · rfl
                · exact absurd hb hrej
              refine ⟨by simp, by simp, ?_, ?_, ?_, ?_⟩
              · intro v hv; exact absurd hv (by simp)
              · intro h; cases h
              · intro m' hm2 hl2
                injection hm2 with he
                subst he
                rw [hl] at hl2
                cases hl2
              · intro m' fs' hm2 hl2
                injection hm2 with he
                subst he
                rw [hl] at hl2
                injection hl2 with he2
                cases he2
                constructor
                · intro hcase
                  rcases hcase with h | h
                  · rw [ho] at h; cases h
                  · rw [ho] at h
                    injection h with he3
                    exact absurd he3.symm (fun hx => hnull hx.symm)
                · intro v' ho' _ _
                  rw [ho] at ho'
                  injection ho' with he3
                  subst he3
                  exact ⟨rfl, rfl, invalidScoreWarning_ne_missingFieldWarning oField sc⟩
      | null =>
        have : JsonResponseParser.parse oField raw = .error PyExn.attributeError := by
          simp only [JsonResponseParser.parse, hm, hl]
        rw [this] at hp
        cases hp
      | bool b =>
        have : JsonResponseParser.parse oField raw = .error PyExn.attributeError := by
          simp only [JsonResponseParser.parse, hm, hl]
        rw [this] at hp
        cases hp
      | int n =>
        have : JsonResponseParser.parse oField raw = .error PyExn.attributeError := by
          simp only [JsonResponseParser.parse, hm, hl]
        rw [this] at hp
        cases hp
      | float lx =>
        have : JsonResponseParser.parse oField raw = .error PyExn.attributeError := by
          simp only [JsonResponseParser.parse, hm, hl]
        rw [this] at hp
        cases hp
      | str s2 =>
        have : JsonResponseParser.parse oField raw = .error PyExn.attributeError := by
          simp only [JsonResponseParser.parse, hm, hl]
        rw [this] at hp
        cases hp
      | arr xs =>
        have : JsonResponseParser.parse oField raw = .error PyExn.attributeError := by
          simp only [JsonResponseParser.parse, hm, hl]
        rw [this] at hp
        cases hp

/-- Counterexample to C2 as stated: on `{"O": 1, "O": true}` the regex matches
(the first "O" is followed by a digit), `json.loads` keeps the last duplicate
key, and the boolean `True` passes both `isinstance(score, int)` and
`score in [0, 1, 2]`, so the parser returns the boolean label with no warning
— not `(None, [descriptive warning])` as the claim requires for a boolean
score value. -/
theorem strategyB_boolean_score_counterexample :
    JsonResponseParser.parse oField (strL "\x7b\"O\": 1, \"O\": true\x7d") =
      .ok (some (JValue.bool true), []) ∧
    (JsonResponseParser.parse oField (strL "\x7b\"O\": 1, \"O\": true\x7d")).map
      Prod.fst ≠ .ok none := by
  constructor
  · rfl
  · intro h
    rw [show (JsonResponseParser.parse oField (strL "\x7b\"O\": 1, \"O\": true\x7d")).map
        Prod.fst = .ok (some (JValue.bool true)) from rfl] at h
    cases h

/-- Events of `k` consecutive failing attempts starting at `attempt`: each
invocation followed by its backoff sleep of `2 ^ attempt` time units. -/
def failEvents : Nat → Nat → List RetryEvent
  | _, 0 => []
  | attempt, k + 1 =>
    RetryEvent.call attempt :: RetryEvent.sleep (2 ^ attempt) ::
      failEvents (attempt + 1) k

/-- Count of invocations among fail events. -/
theorem failEvents_countP_isCall :
    ∀ k attempt, (failEvents attempt k).countP RetryEvent.isCall = k := by
  intro k
  induction k with
  | zero => intro attempt; simp [failEvents]
  | succ n ih =>
    intro attempt
    simp [failEvents, List.countP_cons, RetryEvent.isCall, ih]

/-- Run of the retry loop over a capability failing on the first `k` attempts
after `attempt` and succeeding on attempt `attempt + k`. -/
theorem retryGo_succ {E A : Type} (call : Nat → Except E A) (errStr : E → List Char)
    (qid docid : List Char) (max_retries : Nat) (a : A) (es : Nat → E) :
    ∀ k attempt retries lastErr events,
      attempt + k ≤ max_retries →
      (∀ i, i < k → call (attempt + i) = .error (es (attempt + i))) →
      call (attempt + k) = .ok a →
      retryGo call errStr qid docid max_retries (max_retries + 1 - attempt) attempt retries
          lastErr events =
        ⟨.ok (a, retries + k),
         events.reverse ++ (failEvents attempt k ++ [RetryEvent.call (attempt + k)])⟩ := by
  intro k
  induction k with
  | zero =>
    intro attempt retries lastErr events hle hfail hok
    have hfuel : max_retries + 1 - attempt = (max_retries - attempt) + 1 := by omega
    have hok' : call attempt = .ok a := by simpa using hok
    rw [hfuel]
    simp only [retryGo, hok']
    simp [failEvents]
  | succ n ih =>
    intro attempt retries lastErr events hle hfail hok
    have hfuel : max_retries + 1 - attempt = (max_retries - attempt) + 1 := by omega
    have h0 : call attempt = .error (es attempt) := by
      have h := hfail 0 (by omega)
      simpa using h
    rw [hfuel]
    simp only [retryGo, h0]
    have hlt : attempt < max_retries := by omega
    rw [if_pos hlt]
    have harg : max_retries - attempt = max_retries + 1 - (attempt + 1) := by omega
    rw [harg]
    have hstep := ih (attempt + 1) (retries + 1) (some (errStr (es attempt)))
      (RetryEvent.sleep (2 ^ attempt) :: RetryEvent.call attempt :: events)
      (by omega)
      (fun i hi => by
        have h := hfail (i + 1) (by omega)
        have harith : attempt + (i + 1) = attempt + 1 + i := by omega
        rw [harith] at h
        exact h)
      (by
        have harith : attempt + (n + 1) = attempt + 1 + n := by omega
        rw [harith] at hok
        exact hok)
    rw [hstep]
    have hretries : retries + 1 + n = retries + (n + 1) := by omega
    have hattempt : attempt + 1 + n = attempt + (n + 1) := by omega
    rw [hretries, hattempt]
    simp [failEvents, List.reverse_cons, List.append_assoc]

/-- Run of the retry loop over a capability failing on every attempt. -/
theorem retryGo_fail {E A : Type} (call : Nat → Except E A) (errStr : E → List Char)
    (qid docid : List Char) (max_retries : Nat) (es : Nat → E)
    (hfail : ∀ i, call i = .error (es i)) :
    ∀ fuel attempt retries lastErr events,
      fuel = max_retries + 1 - attempt → attempt ≤ max_retries →
      retryGo call errStr qid docid max_retries fuel attempt retries lastErr events =
        ⟨.error (fatalMsg (retries + (max_retries + 1 - attempt)) qid docid
            (some (errStr (es max_retries)))),
         events.reverse ++ (failEvents attempt (max_retries - attempt) ++
           [RetryEvent.call max_retries])⟩ := by
  intro fuel
  induction fuel with
  | zero =>
    intro attempt retries lastErr events hfuel hle
    omega
  | succ n ih =>
    intro attempt retries lastErr events hfuel hle
    simp only [retryGo, hfail attempt]
    by_cases hlt : attempt < max_retries
    · rw [if_pos hlt]
      have harg : n = max_retries + 1 - (attempt + 1) := by omega
      rw [ih (attempt + 1) (retries + 1) (some (errStr (es attempt)))
        (RetryEvent.sleep (2 ^ attempt) :: RetryEvent.call attempt :: events) harg (by omega)]
      have hretries : retries + 1 + (max_retries + 1 - (attempt + 1)) =
          retries + (max_retries + 1 - attempt) := by omega
      rw [hretries]
      have hk : max_retries - attempt = (max_retries - (attempt + 1)) + 1 := by omega
      rw [hk]
      simp [failEvents, List.reverse_cons, List.append_assoc]
    · have heq : attempt = max_retries := by omega
      subst heq
      rw [if_neg hlt]
      have h1 : retries + (attempt + 1 - attempt) = retries + 1 := by omega
      have h2 : attempt - attempt = 0 := by omega
      rw [h1, h2]
      simp [failEvents, List.reverse_cons]

/-- Claim C3: for every `max_retries ≥ 0` and every injected capability that
fails on exactly the first k attempts and succeeds on attempt k (k ≤
max_retries), the retry controller returns a successful judgement whose
retries field equals k, its event log is exactly call 0, sleep `2^0`, call 1,
sleep `2^1`, ..., call k — one sleep of `2^i` time units after each failed
attempt i, and no sleep before the first attempt (the log starts with call
0). -/
theorem retry_success_after_k_failures {E A : Type} (call : Nat → Except E A)
    (errStr : E → List Char) (qid docid : List Char) (max_retries k : Nat) (a : A)
    (es : Nat → E) (hk : k ≤ max_retries)
    (hfail : ∀ i, i < k → call i = .error (es i))
    (hok : call k = .ok a) :
    HuggingFaceInferenceClient.infer call errStr qid docid max_retries =
      ⟨.ok (a, k), failEvents 0 k ++ [RetryEvent.call k]⟩ ∧
    (HuggingFaceInferenceClient.infer call errStr qid docid max_retries).events.head? =
      some (RetryEvent.call 0) := by
  have hmain : HuggingFaceInferenceClient.infer call errStr qid docid max_retries =
      ⟨.ok (a, k), failEvents 0 k ++ [RetryEvent.call k]⟩ := by
    have h := retryGo_succ call errStr qid docid max_retries a es k 0 0 none []
      (by omega) (fun i hi => by simpa using hfail i hi) (by simpa using hok)
    simpa [HuggingFaceInferenceClient.infer] using h
  refine ⟨hmain, ?_⟩
  rw [hmain]
  cases k with
  | zero => simp [failEvents]
  | succ n => simp [failEvents]

/-- Claim C4: for every `max_retries ≥ 0` and every injected capability that
fails on all attempts, the retry controller invokes the capability exactly
`max_retries + 1` times (the event log counts exactly that many calls), emits
no judgement record (the outcome is the raised error, never `ok`), and raises
a fatal error whose message contains the query id, the docid, and the last
underlying error. -/
theorem retry_exhaustion_after_all_failures {E A : Type} (call : Nat → Except E A)
    (errStr : E → List Char) (qid docid : List Char) (max_retries : Nat)
    (es : Nat → E) (hfail : ∀ i, call i = .error (es i)) :
    HuggingFaceInferenceClient.infer call errStr qid docid max_retries =
      ⟨.error (fatalMsg (max_retries + 1) qid docid (some (errStr (es max_retries)))),
       failEvents 0 max_retries ++ [RetryEvent.call max_retries]⟩ ∧
    (HuggingFaceInferenceClient.infer call errStr qid docid
      max_retries).events.countP RetryEvent.isCall = max_retries + 1 ∧
    (∀ res, (HuggingFaceInferenceClient.infer call errStr qid docid
      max_retries).outcome ≠ .ok res) ∧
    qid <:+: fatalMsg (max_retries + 1) qid docid (some (errStr (es max_retries))) ∧
    docid <:+: fatalMsg (max_retries + 1) qid docid (some (errStr (es max_retries))) ∧
    errStr (es max_retries) <:+:
      fatalMsg (max_retries + 1) qid docid (some (errStr (es max_retries))) := by
  have hmain : HuggingFaceInferenceClient.infer call errStr qid docid max_retries =
      ⟨.error (fatalMsg (max_retries + 1) qid docid (some (errStr (es max_retries)))),
       failEvents 0 max_retries ++ [RetryEvent.call max_retries]⟩ := by
    have h := retryGo_fail call errStr qid docid max_retries es hfail (max_retries + 1) 0 0
      none [] (by omega) (by omega)
    simpa [HuggingFaceInferenceClient.infer] using h
  refine ⟨hmain, ?_, ?_, ?_, ?_, ?_⟩
  · rw [hmain]
    simp [List.countP_append, failEvents_countP_isCall, RetryEvent.isCall]
  · intro res h
    rw [hmain] at h
    cases h
  · exact ⟨strL "Inference failed after " ++ (strL (toString (max_retries + 1)) ++
      strL " retries for "),
      '/' :: (docid ++ (':' :: ' ' :: errStr (es max_retries))),
      by simp [fatalMsg, List.append_assoc]⟩
  · exact ⟨strL "Inference failed after " ++ (strL (toString (max_retries + 1)) ++
      (strL " retries for " ++ (qid ++ ['/']))),
      ':' :: ' ' :: errStr (es max_retries),
      by simp [fatalMsg, List.append_assoc]⟩
  · exact ⟨strL "Inference failed after " ++ (strL (toString (max_retries + 1)) ++
      (strL " retries for " ++ (qid ++ ('/' :: (docid ++ [':', ' ']))))),
      [], by simp [fatalMsg, List.append_assoc]⟩

/-- Witness for C3 at a concrete capability failing twice then succeeding,
with max_retries 3. -/
theorem retry_success_after_k_failures_witness :
    HuggingFaceInferenceClient.infer
        (fun i => if i < 2 then Except.error () else Except.ok (42 : Nat))
        (fun _ => strL "boom") (strL "q1") (strL "d1") 3 =
      ⟨.ok (42, 2), failEvents 0 2 ++ [RetryEvent.call 2]⟩ ∧
    (HuggingFaceInferenceClient.infer
        (fun i => if i < 2 then Except.error () else Except.ok (42 : Nat))
        (fun _ => strL "boom") (strL "q1") (strL "d1") 3).events.head? =
      some (RetryEvent.call 0) :=
  retry_success_after_k_failures
    (fun i => if i < 2 then Except.error () else Except.ok (42 : Nat))
    (fun _ => strL "boom") (strL "q1") (strL "d1") 3 2 42 (fun _ => ())
    (by omega) (fun i hi => by simp [hi]) (by simp)

/-- Witness for C4 at a concrete always-failing capability with max_retries 1:
exactly two calls, one sleep, and the raise. -/
theorem retry_exhaustion_after_all_failures_witness :
    HuggingFaceInferenceClient.infer (fun _ => (Except.error () : Except Unit Nat))
        (fun _ => strL "boom") (strL "q1") (strL "d1") 1 =
      ⟨.error (fatalMsg 2 (strL "q1") (strL "d1") (some (strL "boom"))),
       failEvents 0 1 ++ [RetryEvent.call 1]⟩ :=
  (retry_exhaustion_after_all_failures (fun _ => (Except.error () : Except Unit Nat))
    (fun _ => strL "boom") (strL "q1") (strL "d1") 1 (fun _ => ())
    (fun _ => rfl)).1

/-- Claim C10 (implicit): the retry controller's bare `except Exception`
catches every exception raised inside an attempt, including the ValueError of
`parse_judgement` on text with no extractable label — so an attempt whose
network call succeeds but returns such text consumes a retry with its backoff
sleep exactly like a transient call failure, and a capability that always
returns such text ends in retry exhaustion (a raised fatal error), never in a
judgement record. -/
theorem unparseable_text_exhausts_retries {E : Type} (post : Nat → Except E (List Char))
    (errStr : HFAttemptError E → List Char) (qid docid : List Char) (max_retries : Nat)
    (t msg : List Char) (hpost : ∀ i, post i = .ok t)
    (hparse : parse_judgement t = .error msg) :
    HuggingFaceInferenceClient.infer (hfAttempt post) errStr qid docid max_retries =
      ⟨.error (fatalMsg (max_retries + 1) qid docid
          (some (errStr (HFAttemptError.parseFailure msg)))),
       failEvents 0 max_retries ++ [RetryEvent.call max_retries]⟩ ∧
    (∀ res, (HuggingFaceInferenceClient.infer (hfAttempt post) errStr qid docid
      max_retries).outcome ≠ .ok res) := by
  have hcall : ∀ i, hfAttempt post i = .error (HFAttemptError.parseFailure msg) := by
    intro i
    simp [hfAttempt, hpost i, hparse]
  have hmain := retryGo_fail (hfAttempt post) errStr qid docid max_retries
    (fun _ => HFAttemptError.parseFailure msg) hcall (max_retries + 1) 0 0 none []
    (by omega) (by omega)
  have hmain' : HuggingFaceInferenceClient.infer (hfAttempt post) errStr qid docid
      max_retries =
      ⟨.error (fatalMsg (max_retries + 1) qid docid
          (some (errStr (HFAttemptError.parseFailure msg)))),
       failEvents 0 max_retries ++ [RetryEvent.call max_retries]⟩ := by
    simpa [HuggingFaceInferenceClient.infer] using hmain
  refine ⟨hmain', ?_⟩
  intro res h
  rw [hmain'] at h
  cases h

/-- Witness for C10: a network capability that always succeeds with the
unparseable text "nothing here" exhausts two attempts (max_retries 1) and
raises. -/
theorem unparseable_text_exhausts_retries_witness :
    HuggingFaceInferenceClient.infer
        (hfAttempt (fun _ => (Except.ok (strL "nothing here") : Except Unit (List Char))))
        (HFAttemptError.str (fun _ => strL "neterr")) (strL "q1") (strL "d1") 1 =
      ⟨.error (fatalMsg 2 (strL "q1") (strL "d1")
          (some (strL "Could not extract valid label from output: nothing here"))),
       failEvents 0 1 ++ [RetryEvent.call 1]⟩ :=
  (unparseable_text_exhausts_retries
    (fun _ => (Except.ok (strL "nothing here") : Except Unit (List Char)))
    (HFAttemptError.str (fun _ => strL "neterr")) (strL "q1") (strL "d1") 1
    (strL "nothing here")
    (strL "Could not extract valid label from output: nothing here")
    (fun _ => rfl) rfl).1

/-- Shape of every `JsonResponseParser.parse` result: a label with no
warnings, or no label with exactly one warning. -/
theorem parse_result_shape (field raw : List Char) :
    (∃ v, JsonResponseParser.parse field raw = .ok (some v, [])) ∨
    (∃ w, JsonResponseParser.parse field raw = .ok (none, [w])) := by
  cases hm : findJsonMatch field raw with
  | none =>
    right
    exact ⟨noMatchWarning field, by simp only [JsonResponseParser.parse, hm]⟩
  | some m =>
    obtain ⟨seg, rfl⟩ := findJsonMatch_shape field raw m hm
    cases hl : jsonLoads ('\x7b' :: (seg ++ ['\x7d'])) with
    | none =>
      right
      exact ⟨failedParseWarning, by simp only [JsonResponseParser.parse, hm, hl]⟩
    | some v =>
      obtain ⟨fs, rfl⟩ := jsonLoads_brace_obj _ _ hl
      cases ho : objGet fs field with
      | none =>
        right
        exact ⟨missingFieldWarning field, by simp only [JsonResponseParser.parse, hm, hl, ho]⟩
      | some sc =>
        by_cases hnull : sc = JValue.null
        · subst hnull
          right
          exact ⟨missingFieldWarning field, by simp only [JsonResponseParser.parse, hm, hl, ho]⟩
        · rw [parse_some_score field raw _ fs sc hm hl ho hnull]
          split
          · left; exact ⟨sc, rfl⟩
          · right; exact ⟨invalidScoreWarning field sc, rfl⟩

/-- Claim C8: every ModelJudgement record assembled from a Strategy B parse by
`send_inference_request` satisfies: raw_text equals the model output verbatim;
score equals `float(label)` when the label is present and is None when the
label is None; and whenever the label is None the warnings list is non-empty. -/
theorem openrouter_judgement_invariants (raw qid docid : List Char)
    (j : ORJudgement) (hj : send_inference_request raw qid docid = .ok j) :
    j.raw_text = raw ∧
    (∀ v, j.label = some v → j.score = some (pyFloat v)) ∧
    (j.label = none → j.score = none ∧ j.warnings ≠ []) := by
  rcases parse_result_shape oField raw with ⟨v, hp⟩ | ⟨w, hp⟩
  · have hred : send_inference_request raw qid docid =
        .ok ⟨qid, docid, some v, some (pyFloat v), none, none, raw, 0, [] ++ []⟩ := by
      simp only [send_inference_request, parse_thomas_response, hp]
    rw [hred] at hj
    injection hj with hrec
    subst hrec
    refine ⟨rfl, ?_, ?_⟩
    · intro v' hv
      injection hv with he
      subst he
      rfl
    · intro h
      cases h
  · have hred : send_inference_request raw qid docid =
        .ok ⟨qid, docid, none, none, none, none, raw, 0, [] ++ [w]⟩ := by
      simp only [send_inference_request, parse_thomas_response, hp]
    rw [hred] at hj
    injection hj with hrec
    subst hrec
    refine ⟨rfl, ?_, ?_⟩
    · intro v' hv
      cases hv
    · intro _
      exact ⟨rfl, by simp⟩

/-- Witness for C8 at the model output `{"O": 2}`. -/
theorem openrouter_judgement_invariants_witness :
    (⟨strL "q1", strL "d1", some (JValue.int 2), some (pyFloat (JValue.int 2)), none, none,
        strL "\x7b\"O\": 2\x7d", 0, []⟩ : ORJudgement).raw_text = strL "\x7b\"O\": 2\x7d" ∧
    (⟨strL "q1", strL "d1", some (JValue.int 2), some (pyFloat (JValue.int 2)), none, none,
        strL "\x7b\"O\": 2\x7d", 0, []⟩ : ORJudgement).score = some (pyFloat (JValue.int 2)) := by
  have h := openrouter_judgement_invariants (strL "\x7b\"O\": 2\x7d") (strL "q1") (strL "d1")
    ⟨strL "q1", strL "d1", some (JValue.int 2), some (pyFloat (JValue.int 2)), none, none,
      strL "\x7b\"O\": 2\x7d", 0, []⟩ rfl
  exact ⟨h.1, h.2.1 (JValue.int 2) rfl⟩

/-- Whitespace characters are fixed by ASCII lowercasing. -/
theorem toLower_of_pyIsSpace {c : Char} (h : pyIsSpace c = true) : Char.toLower c = c := by
  simp only [pyIsSpace, Bool.or_eq_true, decide_eq_true_eq] at h
  rcases h with ((((h | h) | h) | h) | h) | h <;> subst h <;> decide

/-- Lowercasing an all-whitespace list is the identity. -/
theorem pyLower_of_allWs {l : List Char} (h : ∀ c ∈ l, pyIsSpace c = true) :
    pyLower l = l := by
  induction l with
  | nil => rfl
  | cons c t ih =>
    simp only [pyLower, List.map_cons, List.cons.injEq]
    constructor
    · exact toLower_of_pyIsSpace (h c (by simp))
    · exact ih (fun x hx => h x (by simp [hx]))

/-- A case-insensitive pattern whose lowercased characters are not whitespace
fails at a whitespace head. -/
theorem ciPrefix_ws_head {pat : List Char} {c : Char} {t : List Char}
    (hpat : ∀ p ∈ pat, pyIsSpace (Char.toLower p) = false) (hne : pat ≠ [])
    (hc : pyIsSpace c = true) : ciPrefix pat (c :: t) = none := by
  cases pat with
  | nil => exact absurd rfl hne
  | cons p ps =>
    simp only [ciPrefix]
    rw [if_neg]
    intro he
    have h1 : pyIsSpace (Char.toLower p) = false := hpat p (by simp)
    rw [he, toLower_of_pyIsSpace hc, hc] at h1
    cases h1

/-- Appending all-whitespace text on the right commutes with a
case-insensitive match of a non-whitespace pattern. -/
theorem ciPrefix_append_ws {w : List Char} (hw : ∀ c ∈ w, pyIsSpace c = true) :
    ∀ pat, (∀ p ∈ pat, pyIsSpace (Char.toLower p) = false) →
      ∀ y, ciPrefix pat (y ++ w) = (ciPrefix pat y).map (fun r => r ++ w) := by
  intro pat
  induction pat with
  | nil => intro _ y; rfl
  | cons p ps ih =>
    intro hpat y
    cases y with
    | nil =>
      simp only [List.nil_append]
      cases w with
      | nil => rfl
      | cons c w' =>
        rw [ciPrefix_ws_head hpat (by simp) (hw c (by simp))]
        rfl
    | cons a ys =>
      simp only [List.cons_append, ciPrefix]
      by_cases hpc : Char.toLower p = Char.toLower a
      · rw [if_pos hpc, if_pos hpc]
        exact ih (fun q hq => hpat q (by simp [hq])) ys
      · rw [if_neg hpc, if_neg hpc]
        rfl

/-- All characters of the three label words, of "label:", of "reasoning:" and
of the keyword list are non-whitespace after lowercasing; stated per pattern
for reuse. -/
theorem labelPat_noWs : ∀ p ∈ strL "label:", pyIsSpace (Char.toLower p) = false := by decide

theorem relevantPat_noWs : ∀ p ∈ strL "relevant", pyIsSpace (Char.toLower p) = false := by
  decide

theorem partiallyPat_noWs : ∀ p ∈ strL "partially", pyIsSpace (Char.toLower p) = false := by
  decide

theorem irrelevantPat_noWs : ∀ p ∈ strL "irrelevant", pyIsSpace (Char.toLower p) = false := by
  decide

/-- The LABEL pattern fails at a whitespace start position. -/
theorem matchLabelAt_ws_head {c : Char} {t : List Char} (hc : pyIsSpace c = true) :
    matchLabelAt (c :: t) = none := by
  simp only [matchLabelAt]
  rw [ciPrefix_ws_head labelPat_noWs (by decide) hc]

/-- Scanning from the head skips a whitespace prefix. -/
theorem searchLabel_dropWhile (s : List Char) :
    searchLabel s = searchLabel (s.dropWhile pyIsSpace) := by
  induction s with
  | nil => rfl
  | cons c t ih =>
    by_cases hc : pyIsSpace c = true
    · rw [List.dropWhile_cons, if_pos hc, ← ih]
      simp only [searchLabel, matchLabelAt_ws_head hc]
    · have hc' : pyIsSpace c = false := by
        cases h : pyIsSpace c
        · rfl
        · exact absurd h hc
      rw [List.dropWhile_cons, if_neg (by simp [hc'])]

/-- The LABEL search fails on all-whitespace text. -/
theorem searchLabel_allWs {s : List Char} (h : ∀ c ∈ s, pyIsSpace c = true) :
    searchLabel s = none := by
  induction s with
  | nil => rfl
  | cons c t ih =>
    simp only [searchLabel, matchLabelAt_ws_head (h c (by simp))]
    exact ih (fun x hx => h x (by simp [hx]))

/-- Appending all-whitespace text on the right commutes with the LABEL
pattern match at a position: the group is unchanged and the appended text
lands after the match end. -/
theorem matchLabelAt_append_ws {w : List Char} (hw : ∀ c ∈ w, pyIsSpace c = true)
    (x : List Char) :
    matchLabelAt (x ++ w) = (matchLabelAt x).map (fun p => (p.1, p.2 ++ w)) := by
  simp only [matchLabelAt]
  rw [ciPrefix_append_ws hw _ labelPat_noWs x]
  cases hx : ciPrefix (strL "label:") x with
  | none => rfl
  | some r1 =>
    dsimp only [Option.map]
    by_cases h1 : r1.dropWhile pyIsSpace = []
    · have hall : ∀ c ∈ r1, pyIsSpace c = true := (List.dropWhile_eq_nil_iff).mp h1
      have h2 : (r1 ++ w).dropWhile pyIsSpace = [] := by
        rw [List.dropWhile_append]
        simp only [h1, List.isEmpty_nil, if_true]
        exact (List.dropWhile_eq_nil_iff).mpr hw
      rw [h1, h2]
      rfl
    · have h2 : (r1 ++ w).dropWhile pyIsSpace = r1.dropWhile pyIsSpace ++ w := by
        rw [List.dropWhile_append]
        rw [if_neg (by simpa [List.isEmpty_iff] using h1)]
      rw [h2]
      rw [ciPrefix_append_ws hw _ relevantPat_noWs]
      cases ciPrefix (strL "relevant") (r1.dropWhile pyIsSpace) with
      | some rest => rfl
      | none =>
        dsimp only [Option.map]
        rw [ciPrefix_append_ws hw _ partiallyPat_noWs]
        cases ciPrefix (strL "partially") (r1.dropWhile pyIsSpace) with
        | some rest => rfl
        | none =>
          dsimp only [Option.map]
          rw [ciPrefix_append_ws hw _ irrelevantPat_noWs]
          cases ciPrefix (strL "irrelevant") (r1.dropWhile pyIsSpace) with
          | some rest => rfl
          | none => rfl

/-- Appending all-whitespace text on the right commutes with the LABEL
search. -/
theorem searchLabel_append_ws {w : List Char} (hw : ∀ c ∈ w, pyIsSpace c = true) :
    ∀ u, searchLabel (u ++ w) = (searchLabel u).map (fun p => (p.1, p.2 ++ w)) := by
  intro u
  induction u with
  | nil =>
    simp only [List.nil_append, searchLabel]
    rw [searchLabel_allWs hw]
    rfl
  | cons c t ih =>
    have hms := matchLabelAt_append_ws hw (c :: t)
    simp only [List.cons_append] at hms
    simp only [List.cons_append, searchLabel, List.append_eq]
    rw [hms]
    cases matchLabelAt (c :: t) with
    | some r => rfl
    | none => exact ih

/-- Trailing whitespace of the leading-stripped text. -/
def trailWs (s : List Char) : List Char :=
  ((s.dropWhile pyIsSpace).reverse.takeWhile pyIsSpace).reverse

/-- Every character of the trailing whitespace is whitespace. -/
theorem trailWs_allWs (s : List Char) : ∀ c ∈ trailWs s, pyIsSpace c = true := by
  intro c hc
  rw [trailWs, List.mem_reverse] at hc
  exact List.mem_takeWhile_imp hc

/-- The leading-stripped text splits as the stripped core plus trailing
whitespace. -/
theorem dropWhile_eq_strip_append (s : List Char) :
    s.dropWhile pyIsSpace = pyStrip s ++ trailWs s := by
  have h := List.takeWhile_append_dropWhile pyIsSpace (s.dropWhile pyIsSpace).reverse
  have h2 := congrArg List.reverse h
  rw [List.reverse_append, List.reverse_reverse] at h2
  rw [pyStrip, trailWs]
  exact h2.symm

/-- Full decomposition of any text: leading whitespace, stripped core,
trailing whitespace. -/
theorem strip_decomp (s : List Char) :
    s = s.takeWhile pyIsSpace ++ (pyStrip s ++ trailWs s) := by
  conv_lhs => rw [← List.takeWhile_append_dropWhile pyIsSpace s, dropWhile_eq_strip_append s]

/-- The LABEL search on the raw text equals the search on the stripped text,
with the trailing whitespace appended to the after-match suffix. -/
theorem searchLabel_strip (s : List Char) :
    searchLabel s = (searchLabel (pyStrip s)).map (fun p => (p.1, p.2 ++ trailWs s)) := by
  rw [searchLabel_dropWhile s, dropWhile_eq_strip_append s]
  exact searchLabel_append_ws (trailWs_allWs s) (pyStrip s)

/-- The LABEL search fails on the raw text iff it fails on the stripped
text. -/
theorem searchLabel_strip_none (s : List Char) :
    searchLabel s = none ↔ searchLabel (pyStrip s) = none := by
  rw [searchLabel_strip s]
  cases searchLabel (pyStrip s) <;> simp

/-- Stripping ignores appended trailing whitespace. -/
theorem pyStrip_append_ws {w : List Char} (hw : ∀ c ∈ w, pyIsSpace c = true)
    (x : List Char) : pyStrip (x ++ w) = pyStrip x := by
  by_cases h : x.dropWhile pyIsSpace = []
  · have h2 : (x ++ w).dropWhile pyIsSpace = w.dropWhile pyIsSpace := by
      rw [List.dropWhile_append]
      simp [h]
    have h3 : w.dropWhile pyIsSpace = [] := List.dropWhile_eq_nil_iff.mpr hw
    rw [pyStrip, pyStrip, h, h2, h3]
  · have h2 : (x ++ w).dropWhile pyIsSpace = x.dropWhile pyIsSpace ++ w := by
      rw [List.dropWhile_append, if_neg (by simpa [List.isEmpty_iff] using h)]
    have h4 : w.reverse.dropWhile pyIsSpace = [] :=
      List.dropWhile_eq_nil_iff.mpr (fun c hc => hw c (List.mem_reverse.mp hc))
    rw [pyStrip, pyStrip, h2, List.reverse_append]
    congr 1
    rw [List.dropWhile_append, h4]
    simp

/-- A successful LABEL search on the raw text restricts to the stripped text:
same group, and the suffixes after the match strip to the same text. -/
theorem searchLabel_strip_some {s lab aft : List Char}
    (h : searchLabel s = some (lab, aft)) :
    ∃ aft₀, searchLabel (pyStrip s) = some (lab, aft₀) ∧ pyStrip aft = pyStrip aft₀ := by
  rw [searchLabel_strip s] at h
  cases hs : searchLabel (pyStrip s) with
  | none => rw [hs] at h; cases h
  | some p =>
    obtain ⟨g, a⟩ := p
    rw [hs] at h
    dsimp only [Option.map] at h
    injection h with h2
    injection h2 with hg ha
    subst hg
    subst ha
    exact ⟨a, rfl, pyStrip_append_ws (trailWs_allWs s) a⟩

/-- Occurrence of a word with non-whitespace characters is unchanged by a
whitespace character in front. -/
theorem infix_cons_ws {pat : List Char} {c : Char} {t : List Char}
    (hpat : ∀ p ∈ pat, pyIsSpace p = false) (hne : pat ≠ [])
    (hc : pyIsSpace c = true) : pat <:+: (c :: t) ↔ pat <:+: t := by
  constructor
  · rintro ⟨a, b, hab⟩
    cases a with
    | nil =>
      cases pat with
      | nil => exact absurd rfl hne
      | cons p ps =>
        simp only [List.nil_append, List.cons_append, List.cons.injEq] at hab
        obtain ⟨h1, _⟩ := hab
        rw [← h1, hpat p (by simp)] at hc
        cases hc
    | cons a0 as =>
      simp only [List.cons_append, List.cons.injEq] at hab
      exact ⟨as, b, hab.2⟩
  · exact fun h => List.infix_cons h

/-- Occurrence of such a word is unchanged by an all-whitespace prefix. -/
theorem infix_append_left_ws {pat : List Char}
    (hpat : ∀ p ∈ pat, pyIsSpace p = false) (hne : pat ≠ []) :
    ∀ w, (∀ c ∈ w, pyIsSpace c = true) → ∀ s, (pat <:+: (w ++ s) ↔ pat <:+: s) := by
  intro w
  induction w with
  | nil => intro _ s; simp
  | cons c ws ih =>
    intro hw s
    rw [List.cons_append, infix_cons_ws hpat hne (hw c (by simp))]
    exact ih (fun x hx => hw x (by simp [hx])) s

/-- Occurrence of such a word is unchanged by an all-whitespace suffix. -/
theorem infix_append_right_ws {pat : List Char}
    (hpat : ∀ p ∈ pat, pyIsSpace p = false) (hne : pat ≠ [])
    {w : List Char} (hw : ∀ c ∈ w, pyIsSpace c = true) (s : List Char) :
    pat <:+: (s ++ w) ↔ pat <:+: s := by
  have h1 : (pat <:+: (s ++ w)) ↔ (pat.reverse <:+: (s ++ w).reverse) :=
    (List.reverse_infix).symm
  have h2 : (pat <:+: s) ↔ (pat.reverse <:+: s.reverse) := (List.reverse_infix).symm
  rw [h1, h2, List.reverse_append]
  exact infix_append_left_ws (fun p hp => hpat p (List.mem_reverse.mp hp))
    (by simpa using hne) w.reverse
    (fun c hc => hw c (List.mem_reverse.mp hc)) s.reverse

/-- The boolean substring test agrees with list infix. -/
theorem containsSub_iff_infix (pat : List Char) :
    ∀ s, containsSub pat s = true ↔ pat <:+: s := by
  intro s
  induction s with
  | nil => simp [containsSub, List.isEmpty_iff, List.infix_nil]
  | cons c t ih =>
    simp only [containsSub, Bool.or_eq_true, ih, List.infix_cons_iff,
      List.isPrefixOf_iff_prefix]

/-- Occurrence of a non-whitespace word in the lowercased input equals its
occurrence in the lowercased stripped input. -/
theorem containsSub_lower_strip {pat : List Char}
    (hpat : ∀ p ∈ pat, pyIsSpace p = false) (hne : pat ≠ []) (s : List Char) :
    containsSub pat (pyLower (pyStrip s)) = containsSub pat (pyLower s) := by
  rw [Bool.eq_iff_iff, containsSub_iff_infix, containsSub_iff_infix]
  have hlead : ∀ c ∈ (s.takeWhile pyIsSpace).map Char.toLower, pyIsSpace c = true := by
    intro c hc
    rw [List.mem_map] at hc
    obtain ⟨a, ha, rfl⟩ := hc
    rw [toLower_of_pyIsSpace (List.mem_takeWhile_imp ha)]
    exact List.mem_takeWhile_imp ha
  have htrail : ∀ c ∈ (trailWs s).map Char.toLower, pyIsSpace c = true := by
    intro c hc
    rw [List.mem_map] at hc
    obtain ⟨a, ha, rfl⟩ := hc
    rw [toLower_of_pyIsSpace (trailWs_allWs s a ha)]
    exact trailWs_allWs s a ha
  constructor
  · intro h
    conv_rhs => rw [strip_decomp s]
    rw [pyLower, List.map_append, List.map_append]
    rw [infix_append_left_ws hpat hne _ hlead]
    rw [infix_append_right_ws hpat hne htrail]
    exact h
  · intro h
    rw [strip_decomp s, pyLower, List.map_append, List.map_append,
      infix_append_left_ws hpat hne _ hlead,
      infix_append_right_ws hpat hne htrail] at h
    exact h

/-- Groups the LABEL pattern can produce. -/
theorem matchLabelAt_group_mem {s : List Char} {p : List Char × List Char}
    (h : matchLabelAt s = some p) :
    p.1 = strL "relevant" ∨ p.1 = strL "partially" ∨ p.1 = strL "irrelevant" := by
  simp only [matchLabelAt] at h
  split at h
  · cases h
  · split at h
    · cases h
      exact Or.inl rfl
    · split at h
      · cases h
        exact Or.inr (Or.inl rfl)
      · split at h
        · cases h
          exact Or.inr (Or.inr rfl)
        · cases h

/-- Groups the LABEL search can produce. -/
theorem searchLabel_group_mem :
    ∀ (s : List Char) (p : List Char × List Char), searchLabel s = some p →
      p.1 = strL "relevant" ∨ p.1 = strL "partially" ∨ p.1 = strL "irrelevant" := by
  intro s
  induction s with
  | nil => intro p h; cases h
  | cons c t ih =>
    intro p h
    simp only [searchLabel] at h
    split at h
    · next heq =>
      cases h
      exact matchLabelAt_group_mem heq
    · exact ih p h

/-- Labels `labelFromText` can produce. -/
theorem labelFromText_label_mem {t : List Char} {lw : List Char × List (List Char)}
    (h : labelFromText t = some lw) :
    lw.1 = strL "relevant" ∨ lw.1 = strL "partially" ∨ lw.1 = strL "irrelevant" := by
  simp only [labelFromText] at h
  split at h
  · next g heq =>
    cases h
    exact searchLabel_group_mem t g heq
  · split at h
    · split at h
      · cases h
        exact Or.inr (Or.inl rfl)
      · cases h
        exact Or.inl rfl
    · split at h
      · cases h
        exact Or.inr (Or.inr rfl)
      · cases h

/-- `parse_judgement` raises iff the label extraction (regex, then keyword
fallback) finds nothing: the "Invalid label" raise is unreachable. -/
theorem parse_judgement_error_iff (raw : List Char) :
    (∃ e, parse_judgement raw = .error e) ↔ labelFromText (pyStrip raw) = none := by
  constructor
  · rintro ⟨e, he⟩
    cases hlf : labelFromText (pyStrip raw) with
    | none => rfl
    | some lw =>
      exfalso
      simp only [parse_judgement, hlf] at he
      rw [if_pos (labelFromText_label_mem hlf)] at he
      split at he
      · cases he
      · split at he
        · split at he
          · cases he
          · cases he
        · cases he
  · intro hlf
    exact ⟨valueErrorMsg (pyStrip raw), by simp only [parse_judgement, hlf]⟩

/-- The label extraction finds nothing iff the LABEL search fails and neither
keyword occurs in the lowercased text. -/
theorem labelFromText_none_iff (t : List Char) :
    labelFromText t = none ↔
      (searchLabel t = none ∧ containsSub (strL "relevant") (pyLower t) = false ∧
       containsSub (strL "irrelevant") (pyLower t) = false) := by
  cases hs : searchLabel t with
  | some g => simp [labelFromText, hs]
  | none =>
    simp only [labelFromText, hs]
    by_cases hA : containsSub (strL "relevant") (pyLower t) = true
    · by_cases hB : containsSub (strL "irrelevant") (pyLower t) = true
      · rw [if_neg (fun hc => hc.2 hB), if_pos hB]
        simp [hB]
      · rw [if_pos ⟨hA, hB⟩]
        split <;> simp [hA]
    · have hA' : containsSub (strL "relevant") (pyLower t) = false := by
        cases h : containsSub (strL "relevant") (pyLower t)
        · rfl
        · exact absurd h hA
      by_cases hB : containsSub (strL "irrelevant") (pyLower t) = true
      · rw [if_neg (fun hc => hA hc.1), if_pos hB]
        simp [hB]
      · have hB' : containsSub (strL "irrelevant") (pyLower t) = false := by
          cases h : containsSub (strL "irrelevant") (pyLower t)
          · rfl
          · exact absurd h hB
        rw [if_neg (fun hc => hA hc.1), if_neg hB]
        simp [hA', hB']

/-- Claim C6: `parse_judgement` raises an exception if and only if the input
has no case-insensitive LABEL-tag match and its lowercased form contains
neither "relevant" nor "irrelevant"; on every other input it returns
normally. -/
theorem strategyA_throw_condition (raw : List Char) :
    (∃ e, parse_judgement raw = .error e) ↔
      (searchLabel raw = none ∧
       containsSub (strL "relevant") (pyLower raw) = false ∧
       containsSub (strL "irrelevant") (pyLower raw) = false) := by
  rw [parse_judgement_error_iff, labelFromText_none_iff, ← searchLabel_strip_none,
    @containsSub_lower_strip (strL "relevant") (by decide) (by decide) raw,
    @containsSub_lower_strip (strL "irrelevant") (by decide) (by decide) raw]

/-- Reduction of `parse_judgement` along a LABEL match on the stripped text. -/
theorem parse_judgement_label_eq (raw lab aft₀ : List Char)
    (hs : searchLabel (pyStrip raw) = some (lab, aft₀))
    (hmem : lab = strL "relevant" ∨ lab = strL "partially" ∨ lab = strL "irrelevant") :
    parse_judgement raw =
      (match searchReasoning (pyStrip raw) with
       | some g => .ok ⟨lab, scoreMap lab, some (pyStrip g), []⟩
       | none =>
         if pyStrip aft₀ ≠ [] then
           .ok ⟨lab, scoreMap lab, some (pyStrip aft₀), [rationaleFallbackWarning]⟩
         else .ok ⟨lab, scoreMap lab, some (pyStrip aft₀), []⟩) := by
  have hlf : labelFromText (pyStrip raw) = some (lab, []) := by
    simp only [labelFromText, hs]
  simp only [parse_judgement, hlf]
  rw [if_pos hmem]
  cases hr : searchReasoning (pyStrip raw) with
  | some g => rfl
  | none =>
    simp only [hs]
    split
    · rfl
    · rfl

/-- Reduction of `parse_judgement` through the keyword fallback. -/
theorem parse_judgement_fallback_eq (raw lab : List Char) (ws0 : List (List Char))
    (hs0 : searchLabel (pyStrip raw) = none)
    (hlf : labelFromText (pyStrip raw) = some (lab, ws0))
    (hmem : lab = strL "relevant" ∨ lab = strL "partially" ∨ lab = strL "irrelevant") :
    parse_judgement raw =
      (match searchReasoning (pyStrip raw) with
       | some g => .ok ⟨lab, scoreMap lab, some (pyStrip g), ws0⟩
       | none => .ok ⟨lab, scoreMap lab, none, ws0 ++ [noRationaleWarning]⟩) := by
  simp only [parse_judgement, hlf]
  rw [if_pos hmem]
  cases hr : searchReasoning (pyStrip raw) with
  | some g => rfl
  | none => simp only [hs0]

/-- Counterexample to C5 as stated: "LABEL: relevant blah" has a LABEL-tag
match (so the claim requires an empty warnings list), but the text after the
label is used as fallback rationale, which appends a warning. -/
theorem strategyA_trailing_text_counterexample :
    parse_judgement (strL "LABEL: relevant blah") =
      .ok ⟨strL "relevant", 0.9, some (strL "blah"), [rationaleFallbackWarning]⟩ ∧
    (parse_judgement (strL "LABEL: relevant blah")).map ParsedJudgement.warnings ≠
      .ok [] := by
  constructor
  · rfl
  · intro h
    rw [show (parse_judgement (strL "LABEL: relevant blah")).map ParsedJudgement.warnings =
        .ok [rationaleFallbackWarning] from rfl] at h
    cases h

/-- Claim C5 (amended): for every input with a case-insensitive
`LABEL:\s*(relevant|partially|irrelevant)` match, `parse_judgement` returns
that label (lowercased) and the score given by the fixed mapping
relevant 0.9, partially 0.5, irrelevant 0.1; the warnings list is empty,
except when the stripped text has no REASONING tag and non-whitespace text
follows the label match, in which case it is exactly the single
rationale-fallback warning. (The amendment is forced by the counterexample:
as stated, the claim requires an empty warnings list in that last case.) -/
theorem strategyA_label_match (raw lab aft : List Char)
    (h : searchLabel raw = some (lab, aft)) :
    ∃ pj, parse_judgement raw = .ok pj ∧
      pj.label = lab ∧ pj.score = scoreMap lab ∧
      pj.warnings = (if searchReasoning (pyStrip raw) = none ∧ pyStrip aft ≠ []
        then [rationaleFallbackWarning] else []) := by
  obtain ⟨aft₀, hs, hstrip⟩ := searchLabel_strip_some h
  have hmem := searchLabel_group_mem raw (lab, aft) h
  rw [parse_judgement_label_eq raw lab aft₀ hs hmem]
  cases hr : searchReasoning (pyStrip raw) with
  | some g =>
    refine ⟨_, rfl, rfl, rfl, ?_⟩
    rw [if_neg (fun hc => by cases hc.1)]
  | none =>
    by_cases hne : pyStrip aft₀ ≠ []
    · rw [if_pos hne]
      refine ⟨_, rfl, rfl, rfl, ?_⟩
      rw [if_pos ⟨rfl, by rw [hstrip]; exact hne⟩]
    · rw [if_neg hne]
      refine ⟨_, rfl, rfl, rfl, ?_⟩
      rw [if_neg (fun hc => hne (hstrip ▸ hc.2))]

/-- Witness for C5 (amended) at a well-formed input with a REASONING tag. -/
theorem strategyA_label_match_witness :
    ∃ pj, parse_judgement (strL "LABEL: relevant\nREASONING: it matches") = .ok pj ∧
      pj.label = strL "relevant" ∧
      pj.score = scoreMap (strL "relevant") ∧
      pj.warnings = (if searchReasoning (pyStrip (strL "LABEL: relevant\nREASONING: it matches")) = none ∧
          pyStrip (strL "\nREASONING: it matches") ≠ []
        then [rationaleFallbackWarning] else []) :=
  strategyA_label_match (strL "LABEL: relevant\nREASONING: it matches") (strL "relevant")
    (strL "\nREASONING: it matches") rfl

/-- Is the warning one of the three fallback-extraction warnings? -/
def isFbWarning (w : List Char) : Bool :=
  w = fbWarning (strL "relevant") || w = fbWarning (strL "partially") ||
    w = fbWarning (strL "irrelevant")

/-- Claim C7: on input with no LABEL-tag match, the keyword fallback
classifies by scanning the lowercased text — "partially" when "partial" (or
"partially") also occurs alongside "relevant" without "irrelevant", else
"relevant"; "irrelevant" when "irrelevant" occurs — and the taken branch
appends exactly one fallback warning, naming the extracted label, at the head
of the warnings list. -/
theorem strategyA_fallback_classification (raw : List Char)
    (h : searchLabel raw = none) :
    ((containsSub (strL "relevant") (pyLower raw) = true ∧
      containsSub (strL "irrelevant") (pyLower raw) = false) →
      ∃ pj, parse_judgement raw = .ok pj ∧
        pj.label = (if (containsSub (strL "partially") (pyLower raw) ∨
            containsSub (strL "partial") (pyLower raw)) then strL "partially"
          else strL "relevant") ∧
        pj.warnings.head? = some (fbWarning pj.label) ∧
        pj.warnings.countP isFbWarning = 1) ∧
    (containsSub (strL "irrelevant") (pyLower raw) = true →
      ∃ pj, parse_judgement raw = .ok pj ∧
        pj.label = strL "irrelevant" ∧
        pj.warnings.head? = some (fbWarning (strL "irrelevant")) ∧
        pj.warnings.countP isFbWarning = 1) := by
  have hs0 : searchLabel (pyStrip raw) = none := (searchLabel_strip_none raw).mp h
  have hrel := @containsSub_lower_strip (strL "relevant") (by decide) (by decide) raw
  have hirr := @containsSub_lower_strip (strL "irrelevant") (by decide) (by decide) raw
  have hply := @containsSub_lower_strip (strL "partially") (by decide) (by decide) raw
  have hpl := @containsSub_lower_strip (strL "partial") (by decide) (by decide) raw
  constructor
  · rintro ⟨hA, hB⟩
    by_cases hp : (containsSub (strL "partially") (pyLower raw) ∨
        containsSub (strL "partial") (pyLower raw))
    · have hlf : labelFromText (pyStrip raw) =
          some (strL "partially", [fbWarning (strL "partially")]) := by
        simp only [labelFromText, hs0]
        rw [if_pos ⟨hrel.trans hA, by simp [hirr.trans hB]⟩]
        rw [if_pos (by rcases hp with hp | hp
                       · exact Or.inl (hply.trans hp)
                       · exact Or.inr (hpl.trans hp))]
      rw [parse_judgement_fallback_eq raw (strL "partially") [fbWarning (strL "partially")]
        hs0 hlf (Or.inr (Or.inl rfl))]
      rw [if_pos hp]
      cases hr : searchReasoning (pyStrip raw) with
      | some g =>
        exact ⟨_, rfl, rfl, rfl,
          (by decide : List.countP isFbWarning [fbWarning (strL "partially")] = 1)⟩
      | none =>
        exact ⟨_, rfl, rfl, rfl,
          (by decide : List.countP isFbWarning
            ([fbWarning (strL "partially")] ++ [noRationaleWarning]) = 1)⟩
    · have hlf : labelFromText (pyStrip raw) =
          some (strL "relevant", [fbWarning (strL "relevant")]) := by
        simp only [labelFromText, hs0]
        rw [if_pos ⟨hrel.trans hA, by simp [hirr.trans hB]⟩]
        rw [if_neg (by
          rintro (hx | hx)
          · exact hp (Or.inl (hply.symm.trans hx))
          · exact hp (Or.inr (hpl.symm.trans hx)))]
      rw [parse_judgement_fallback_eq raw (strL "relevant") [fbWarning (strL "relevant")]
        hs0 hlf (Or.inl rfl)]
      rw [if_neg hp]
      cases hr : searchReasoning (pyStrip raw) with
      | some g =>
        exact ⟨_, rfl, rfl, rfl,
          (by decide : List.countP isFbWarning [fbWarning (strL "relevant")] = 1)⟩
      | none =>
        exact ⟨_, rfl, rfl, rfl,
          (by decide : List.countP isFbWarning
            ([fbWarning (strL "relevant")] ++ [noRationaleWarning]) = 1)⟩
  · intro hB
    have hlf : labelFromText (pyStrip raw) =
        some (strL "irrelevant", [fbWarning (strL "irrelevant")]) := by
      simp only [labelFromText, hs0]
      rw [if_neg (fun hc => by
        have := hc.2
        exact this (hirr.trans hB))]
      rw [if_pos (hirr.trans hB)]
    rw [parse_judgement_fallback_eq raw (strL "irrelevant") [fbWarning (strL "irrelevant")]
      hs0 hlf (Or.inr (Or.inr rfl))]
    cases hr : searchReasoning (pyStrip raw) with
    | some g =>
      exact ⟨_, rfl, rfl, rfl,
        (by decide : List.countP isFbWarning [fbWarning (strL "irrelevant")] = 1)⟩
    | none =>
      exact ⟨_, rfl, rfl, rfl,
        (by decide : List.countP isFbWarning
          ([fbWarning (strL "irrelevant")] ++ [noRationaleWarning]) = 1)⟩

/-- Witness for C7 at unstructured text carrying "partially relevant". -/
theorem strategyA_fallback_classification_witness :
    ∃ pj, parse_judgement (strL "this text is partially relevant") = .ok pj ∧
      pj.label = (if (containsSub (strL "partially")
            (pyLower (strL "this text is partially relevant")) ∨
          containsSub (strL "partial") (pyLower (strL "this text is partially relevant")))
        then strL "partially" else strL "relevant") ∧
      pj.warnings.head? = some (fbWarning pj.label) ∧
      pj.warnings.countP isFbWarning = 1 :=
  (strategyA_fallback_classification (strL "this text is partially relevant") rfl).1
    ⟨rfl, rfl⟩

/-- Claim C9: `normalize_confidence` scales the score by 0.8 for the
"partially" label and passes it through unchanged for "relevant" and
"irrelevant"; composed with the fixed score mapping of `parse_judgement`, the
derived confidence is 0.9 for "relevant", 0.4 for "partially" and 0.1 for
"irrelevant". -/
theorem normalize_confidence_spec :
    (∀ s : ℚ, normalize_confidence s (strL "partially") = s * 0.8) ∧
    (∀ s : ℚ, normalize_confidence s (strL "relevant") = s) ∧
    (∀ s : ℚ, normalize_confidence s (strL "irrelevant") = s) ∧
    normalize_confidence (scoreMap (strL "relevant")) (strL "relevant") = 0.9 ∧
    normalize_confidence (scoreMap (strL "partially")) (strL "partially") = 0.4 ∧
    normalize_confidence (scoreMap (strL "irrelevant")) (strL "irrelevant") = 0.1 := by
  refine ⟨?_, ?_, ?_, ?_, ?_, ?_⟩
  · intro s
    rw [normalize_confidence, if_pos rfl]
  · intro s
    rw [normalize_confidence, if_neg (by decide)]
  · intro s
    rw [normalize_confidence, if_neg (by decide)]
  · rw [normalize_confidence, if_neg (by decide), scoreMap, if_pos rfl]
  · rw [normalize_confidence, if_pos rfl, scoreMap, if_neg (by decide), if_pos rfl]
    norm_num
  · rw [normalize_confidence, if_neg (by decide), scoreMap, if_neg (by decide),
      if_neg (by decide), if_pos rfl]
